import Mathlib

/-!
Verification of the trajectory-collection and PPO-update engine of
`PPO-BiHyb/dag_ppo_single_train.py`.

The Python source is shallowly embedded: pure data manipulation becomes Lean
functions over `List`; the mutable Python heap (needed to distinguish a
deep-copied snapshot from an alias) is modelled explicitly as an
address-indexed store; external collaborators (the GNN policy, the DAG
environment, the optimizer's gradient step) are abstract parameters, exactly
as the spec's §6 treats them.  Exact rationals stand in for float arithmetic
where the claims demand exact values, and real numbers where the update's
normalization (mean/std/exp) is involved.
-/

namespace DagPPO

/-! ### ItemsContainer (value level) — source lines 22-67

`ItemsContainer` holds, per batch slot, the running reward, graph state,
makespan, node candidates and done flag.  Graph states and candidate sets are
opaque to the container, hence type parameters `G` and `C`.  `update` mirrors
the Python keyword-optional arguments with `Option` fields: a `none` field is
left untouched, a `some` field overwrites slot `idx` only. -/

structure ItemsContainer (G C : Type) where
  reward : List ℚ
  inp_graph : List G
  makespan : List ℚ
  node_candidates : List C
  done : List Bool

/-- Source `ItemsContainer.__init__`: all five lists start empty (lines 23-28). -/
def ItemsContainer.init (G C : Type) : ItemsContainer G C :=
  ⟨[], [], [], [], []⟩

/-- Source `ItemsContainer.append` (lines 30-35). -/
def ItemsContainer.append {G C : Type} (c : ItemsContainer G C)
    (reward : ℚ) (inp_graph : G) (makespan : ℚ) (node_candidates : C)
    (done : Bool) : ItemsContainer G C :=
  ⟨c.reward ++ [reward], c.inp_graph ++ [inp_graph], c.makespan ++ [makespan],
   c.node_candidates ++ [node_candidates], c.done ++ [done]⟩

/-- Source `ItemsContainer.update` (lines 57-67): each supplied (non-`none`) field
overwrites index `idx` of the corresponding list; `none` fields are skipped. -/
def ItemsContainer.update {G C : Type} (c : ItemsContainer G C) (idx : Nat)
    (reward : Option ℚ) (inp_graph : Option G) (makespan : Option ℚ)
    (node_candidates : Option C) (done : Option Bool) : ItemsContainer G C :=
  { reward := match reward with
      | none => c.reward
      | some r => c.reward.set idx r
    inp_graph := match inp_graph with
      | none => c.inp_graph
      | some g => c.inp_graph.set idx g
    makespan := match makespan with
      | none => c.makespan
      | some m => c.makespan.set idx m
    node_candidates := match node_candidates with
      | none => c.node_candidates
      | some n => c.node_candidates.set idx n
    done := match done with
      | none => c.done
      | some d => c.done.set idx d }

/-! ### Python heap model for the deep-copy accessors — source lines 37-55

The five `@property` accessors return `deepcopy(self.__field)`.  To state
that mutating the returned list never touches the container we model the
Python store explicitly: a heap is a list of cells, an address is an index,
and the private field of the container is an address into the heap.  A
`deepcopy` accessor allocates a fresh cell holding a copy of the field's
current value and returns the fresh address; an in-place mutation is a write
to an address. -/

structure Heap (α : Type) where
  cells : List α

/-- Read the cell at address `a` (with a default for out-of-range reads). -/
def Heap.read {α : Type} (h : Heap α) (a : Nat) (dflt : α) : α :=
  h.cells.getD a dflt

/-- Overwrite the cell at address `a` in place. -/
def Heap.write {α : Type} (h : Heap α) (a : Nat) (v : α) : Heap α :=
  ⟨h.cells.set a v⟩

/-- Allocate a fresh cell holding `v`; returns the new heap and the new
address. -/
def Heap.alloc {α : Type} (h : Heap α) (v : α) : Heap α × Nat :=
  (⟨h.cells ++ [v]⟩, h.cells.length)

/-- A sequence of in-place mutations of the cell at address `a`, applied in
order. -/
def Heap.writes {α : Type} (h : Heap α) (a : Nat) (ms : List α) : Heap α :=
  ms.foldl (fun hh v => hh.write a v) h

/-- The heap-level `ItemsContainer`: each private field is an address of a
cell holding the field's list value. -/
structure ItemsRef where
  rewardA : Nat
  inp_graphA : Nat
  makespanA : Nat
  node_candidatesA : Nat
  doneA : Nat

/-- Container well-formedness: every field address is a live cell. -/
def ItemsRef.wf {α : Type} (c : ItemsRef) (h : Heap α) : Prop :=
  c.rewardA < h.cells.length ∧ c.inp_graphA < h.cells.length ∧
  c.makespanA < h.cells.length ∧ c.node_candidatesA < h.cells.length ∧
  c.doneA < h.cells.length

/-- A `deepcopy` read accessor (lines 37-55): allocate a fresh cell with a
copy of the field's current value, return its address. -/
def snapshotAt {α : Type} (h : Heap α) (a : Nat) (dflt : α) : Heap α × Nat :=
  h.alloc (h.read a dflt)

/-- The five internal field addresses of the container, in source order. -/
def ItemsRef.fieldAddrs (c : ItemsRef) : List Nat :=
  [c.rewardA, c.inp_graphA, c.makespanA, c.node_candidatesA, c.doneA]

/-- The `reward` property (lines 37-39): `return deepcopy(self.__reward)`. -/
def ItemsRef.reward {α : Type} (c : ItemsRef) (h : Heap α) (dflt : α) :
    Heap α × Nat :=
  snapshotAt h c.rewardA dflt

/-- The `inp_graph` property (lines 41-43). -/
def ItemsRef.inp_graph {α : Type} (c : ItemsRef) (h : Heap α) (dflt : α) :
    Heap α × Nat :=
  snapshotAt h c.inp_graphA dflt

/-- The `makespan` property (lines 45-47). -/
def ItemsRef.makespan {α : Type} (c : ItemsRef) (h : Heap α) (dflt : α) :
    Heap α × Nat :=
  snapshotAt h c.makespanA dflt

/-- The `node_candidates` property (lines 49-51). -/
def ItemsRef.node_candidates {α : Type} (c : ItemsRef) (h : Heap α) (dflt : α) :
    Heap α × Nat :=
  snapshotAt h c.node_candidatesA dflt

/-- The `done` property (lines 53-55). -/
def ItemsRef.done {α : Type} (c : ItemsRef) (h : Heap α) (dflt : α) :
    Heap α × Nat :=
  snapshotAt h c.doneA dflt

/-! ### Memory (trajectory buffer) — source lines 70-85 -/

structure Memory (G C A L : Type) where
  actions : List A
  states : List (List G)
  candidates : List (List C)
  logprobs : List L
  rewards : List (List ℚ)
  is_terminals : List (List Bool)

/-- Source `Memory.__init__` (lines 71-77): six empty lists. -/
def Memory.init (G C A L : Type) : Memory G C A L :=
  ⟨[], [], [], [], [], []⟩

/-- Source `Memory.clear_memory` (lines 79-85): `del list[:]` on each of the six
lists leaves each one empty, in place. -/
def Memory.clear_memory {G C A L : Type} (_m : Memory G C A L) :
    Memory G C A L :=
  ⟨[], [], [], [], [], []⟩

/-- All six trajectory lists have the same length: each recorded timestep
carries a complete `(state, candidates, action, logprob, reward, done)`
record. -/
def Memory.aligned {G C A L : Type} (m : Memory G C A L) : Prop :=
  m.actions.length = m.states.length ∧
  m.candidates.length = m.states.length ∧
  m.logprobs.length = m.states.length ∧
  m.rewards.length = m.states.length ∧
  m.is_terminals.length = m.states.length

/-! ### PPO.update, backward return recursion — source lines 148-161

`discounted_reward` starts as the critic's bootstrap value on the last
recorded state; iterating the buffered `(reward, is_terminal)` batches in
reverse order, each step first multiplies the running value elementwise by
`(1 - done)` and then sets `discounted_reward = reward + gamma *
discounted_reward`, prepending the result.  Booleans are converted to `0/1`
exactly as `torch.tensor(is_terminal, dtype=torch.float32)` does. -/

def doneToFloat (d : Bool) : ℚ := if d then 1 else 0

/-- Line 159: `discounted_reward = discounted_reward * (1 - done)`,
elementwise over the batch. -/
def maskDone (dr : List ℚ) (done : List Bool) : List ℚ :=
  List.zipWith (fun x d => x * (1 - doneToFloat d)) dr done

/-- Lines 159-160 for one buffered timestep: mask the carried value by
`(1 - done)`, then `reward + gamma * masked`. -/
def stepReturn (gamma : ℚ) (reward : List ℚ) (done : List Bool)
    (dr : List ℚ) : List ℚ :=
  List.zipWith (fun r x => r + gamma * x) reward (maskDone dr done)

/-- Lines 150-161: the full backward recursion.  `steps` is the buffer in
forward order, each entry a `(reward batch, is_terminal batch)` pair;
`bootstrap` is the critic's value on the last recorded state.  Returns the
per-timestep return batches in forward order (the `rewards` list built by
`rewards.insert(0, ...)`) together with the final carried
`discounted_reward`. -/
def computeReturns (gamma : ℚ) (steps : List (List ℚ × List Bool))
    (bootstrap : List ℚ) : List (List ℚ) × List ℚ :=
  match steps with
  | [] => ([], bootstrap)
  | (reward, is_terminal) :: rest =>
      let p := computeReturns gamma rest bootstrap
      let dr := stepReturn gamma reward is_terminal p.2
      (dr :: p.1, dr)

/-! ### PPO.update, normalization and K-epoch loop — source lines 163-196

After the backward recursion the returns are concatenated and standardized
(line 165, with `1e-5` added to the unbiased standard deviation); inside the
K-epoch loop (lines 180-196) the current policy is re-evaluated, the
importance ratio is `exp(new_logprob - old_logprob)`, and the advantage is
the normalized return minus the state value (`.detach()` affects only
gradient tracking, so at the value level it is the identity).  These are
modelled over `ℝ`; the policy evaluation itself is external (spec §6) and
enters as an abstract per-epoch result. -/

/-- Model of `torch.Tensor.mean` of a flat list. -/
noncomputable def tmean (l : List ℝ) : ℝ := l.sum / l.length

/-- Model of `torch.Tensor.std` of a flat list: unbiased (denominator `n - 1`) sample
standard deviation, torch's default. -/
noncomputable def tstd (l : List ℝ) : ℝ :=
  Real.sqrt ((l.map (fun x => (x - tmean l) ^ 2)).sum / ((l.length : ℝ) - 1))

/-- Line 165: `rewards = (rewards - rewards.mean()) / (rewards.std() + 1e-5)`. -/
noncomputable def normalizeRewards (r : List ℝ) : List ℝ :=
  r.map (fun x => (x - tmean r) / (tstd r + 1e-5))

/-- The result of `self.policy.evaluate(...)` in one epoch (line 182):
fresh log-probabilities, state values and entropies for the flat batch. -/
structure EpochEval where
  logprobs : List ℝ
  state_values : List ℝ
  dist_entropy : List ℝ

/-- The per-epoch intermediate tensors of lines 184-194. -/
structure EpochOut where
  ratios : List ℝ
  advantages : List ℝ
  surr1 : List ℝ
  surr2 : List ℝ

/-- Model of `torch.clamp(x, lo, hi)`. -/
noncomputable def clampR (x lo hi : ℝ) : ℝ := max lo (min hi x)

/-- One epoch of the loop body, lines 184-194: ratio, advantage and the two
surrogate terms. -/
noncomputable def ppoEpoch (eps_clip : ℝ) (rewards old_logprobs : List ℝ)
    (ev : EpochEval) : EpochOut :=
  let ratios := List.zipWith (fun l o => Real.exp (l - o)) ev.logprobs old_logprobs
  let advantages := List.zipWith (fun r v => r - v) rewards ev.state_values
  let surr1 := List.zipWith (fun x a => x * a) ratios advantages
  let surr2 := List.zipWith
    (fun x a => clampR x (1 - eps_clip) (1 + eps_clip) * a) ratios advantages
  ⟨ratios, advantages, surr1, surr2⟩

/-- Lines 163-196: normalize the concatenated returns once, then run the
K-epoch loop; `evalPolicy k` is the (external) evaluation of the current
policy at epoch `k`. -/
noncomputable def ppoUpdateEpochs (K : Nat) (eps_clip : ℝ)
    (returns old_logprobs : List ℝ) (evalPolicy : Nat → EpochEval) :
    List EpochOut :=
  let rewards := normalizeRewards returns
  (List.range K).map (fun k => ppoEpoch eps_clip rewards old_logprobs (evalPolicy k))

/-! ### The two policy snapshots — source lines 131, 143-144, 206-207

`PPO.__init__` creates `policy` and `policy_old` and copies the former's
parameters into the latter (line 144); `PPO.update` ends with
`self.policy_old.load_state_dict(self.policy.state_dict())` (line 207).
Parameters are an abstract type `P`; one optimizer epoch is an abstract
parameter transformer. -/

structure PPOState (P : Type) where
  policy : P
  policy_old : P

/-- Lines 131, 143-144: both snapshots start equal. -/
def PPOState.init {P : Type} (p0 : P) : PPOState P := ⟨p0, p0⟩

/-- Effect of `PPO.update` on the two snapshots (lines 180-207): `K` gradient
epochs transform `policy`; the final step copies the new weights into
`policy_old`. -/
def ppoUpdate {P : Type} (gradEpoch : P → P) (K : Nat) (s : PPOState P) :
    PPOState P :=
  let p := gradEpoch^[K] s.policy
  ⟨p, p⟩

/-! ### The training driver's timestep — source lines 281-319

One iteration of `for t in range(args.max_timesteps)`: act under
`policy_old` (recording state, candidates, action and logprob into the
buffer, lines 99-108 via line 286), step the environment for every slot
(lines 288-303, abstracted as `envF`), record the batched reward and done
flags (lines 306-307), and on the update cadence run `ppo.update` followed
by `memory.clear_memory()` (lines 310-315). -/

structure DriverState (P G C A L : Type) where
  memory : Memory G C A L
  items : ItemsContainer G C
  ppo : PPOState P
  timestep : Nat

/-- Source `ActorCritic.act` (lines 99-108), called at line 286 under `policy_old`:
appends the batched state, candidates, actions and logprobs to the buffer
and returns the actions. -/
def actRecord {P G C A L : Type} (actF : P → List G → List C → A × L)
    (p : P) (items : ItemsContainer G C) (m : Memory G C A L) :
    Memory G C A L × A :=
  let al := actF p items.inp_graph items.node_candidates
  ({ m with states := m.states ++ [items.inp_graph],
            candidates := m.candidates ++ [items.node_candidates],
            actions := m.actions ++ [al.1],
            logprobs := m.logprobs ++ [al.2] }, al.1)

/-- Lines 306-307: append the batched reward and done flags of the stepped
container. -/
def recordStep {G C A L : Type} (items : ItemsContainer G C)
    (m : Memory G C A L) : Memory G C A L :=
  { m with rewards := m.rewards ++ [items.reward],
           is_terminals := m.is_terminals ++ [items.done] }

/-- One full timestep of the rollout loop body (lines 281-315).  `envF`
abstracts the worker-pool environment step plus container updates
(lines 288-303); `trainF m` abstracts one optimizer epoch of `PPO.update`
run on buffer contents `m`. -/
def mainTimestep {P G C A L : Type} (actF : P → List G → List C → A × L)
    (envF : ItemsContainer G C → A → ItemsContainer G C)
    (trainF : Memory G C A L → P → P) (K update_timestep : Nat)
    (s : DriverState P G C A L) : DriverState P G C A L :=
  let ts := s.timestep + 1
  let ma := actRecord actF s.ppo.policy_old s.items s.memory
  let items2 := envF s.items ma.2
  let mem2 := recordStep items2 ma.1
  if ts % update_timestep = 0 then
    { memory := mem2.clear_memory, items := items2,
      ppo := ppoUpdate (trainF mem2) K s.ppo, timestep := ts }
  else
    { memory := mem2, items := items2, ppo := s.ppo, timestep := ts }

/-- The trajectory buffer exactly as it stands when `ppo.update(memory)` is
entered at line 311: the buffer carried into the timestep, plus this
timestep's four act-appends (lines 103-106) and the reward/done appends
(lines 306-307). -/
def consumedBuffer {P G C A L : Type} (actF : P → List G → List C → A × L)
    (envF : ItemsContainer G C → A → ItemsContainer G C)
    (s : DriverState P G C A L) : Memory G C A L :=
  recordStep (envF s.items (actRecord actF s.ppo.policy_old s.items s.memory).2)
    (actRecord actF s.ppo.policy_old s.items s.memory).1

/-! ### The episode step loop's control flow — source lines 281-319

`for t in range(args.max_timesteps): ...; if any(items_batch.done): break`.
The body steps *every* slot (the generator at lines 288-293 yields one work
item per `b in range(batch_size)` with no done-check), then the loop breaks
at the end of the timestep iff any slot's done flag is true.  The per-slot
state and its environment step are abstract. -/

def stepEpisode {σ : Type} (stepSlot : σ → σ) (isDone : σ → Bool) :
    Nat → List σ → List (List σ)
  | 0, _ => []
  | Nat.succ n, batch =>
      let batch2 := batch.map stepSlot
      if batch2.any isDone then [batch2]
      else batch2 :: stepEpisode stepSlot isDone n batch2

/-! ### Configuration parsing — source lines 389-447

`parse_arguments` builds an `argparse` namespace whose attributes are
exactly the declared option names; when `--config` names a YAML file, each
`(key, value)` pair is applied in order with `assert hasattr(args, key)`
before `setattr` (lines 434-439).  `main(parse_arguments())` only runs after
parsing succeeds (line 451), so every environment or network call is behind
the parse. -/

/-- The attribute names of the parsed `args` namespace: the `dest` of every
`parser.add_argument` call in lines 394-430. -/
def knownKeys : List String :=
  ["scheduler_type", "resource_limit", "add_graph_features", "num_init_dags",
   "gamma", "train_sample", "test_sample", "search_size", "learning_rate",
   "lr_steps", "batch_size", "betas", "max_episodes", "max_timesteps",
   "update_timestep", "k_epochs", "eps_clip", "one_hot_degree", "batch_norm",
   "node_output_size", "gnn_layers", "config", "random_seed",
   "test_interval", "log_interval", "test_model_weight"]

/-- Model of `hasattr(args, k)` over an attribute map modelled as an association
list. -/
def hasattr {V : Type} (args : List (String × V)) (k : String) : Bool :=
  args.any (fun kv => kv.1 = k)

/-- Model of `setattr(args, k, v)`: overwrite the attribute `k` (argparse namespaces
here only ever set existing attributes, guarded by the assert). -/
def setattr {V : Type} (args : List (String × V)) (k : String) (v : V) :
    List (String × V) :=
  args.map (fun kv => if kv.1 = k then (k, v) else kv)

/-- Lines 437-439: apply the config entries in order; an unknown key makes
the `assert hasattr(args, key)` fail, a fatal `AssertionError`. -/
def applyConfig {V : Type} (cfg args : List (String × V)) :
    Except String (List (String × V)) :=
  match cfg with
  | [] => .ok args
  | kv :: rest =>
      if hasattr args kv.1 then applyConfig rest (setattr args kv.1 kv.2)
      else .error ("Unknown config key: " ++ kv.1)

/-- Line 451, `main(parse_arguments())`: config application happens inside
`parse_arguments`; only on success does `main` run and emit its environment
and network calls, abstracted as the event trace `mainEvents args`. -/
def runProgram {V E : Type} (cfg args0 : List (String × V))
    (mainEvents : List (String × V) → List E) : Except String (List E) :=
  match applyConfig cfg args0 with
  | .error e => .error e
  | .ok a => .ok (mainEvents a)

/-! ## Theorems -/

/-- The carried `discounted_reward` keeps the batch width `B` throughout the
backward recursion. -/
theorem computeReturns_carried_length (gamma : ℚ)
    (steps : List (List ℚ × List Bool)) (boot : List ℚ) (B : ℕ)
    (hs : ∀ s ∈ steps, s.1.length = B ∧ s.2.length = B)
    (hb : boot.length = B) :
    (computeReturns gamma steps boot).2.length = B := by
  induction steps with
  | nil => simpa [computeReturns]
  | cons s rest ih =>
      have h1 := hs s (List.mem_cons_self ..)
      have ih' := ih (fun x hx => hs x (List.mem_cons_of_mem _ hx))
      obtain ⟨r, d⟩ := s
      simp only [computeReturns, stepReturn, maskDone, List.length_zipWith, ih']
      simp only at h1
      rw [h1.1, h1.2]
      simp

/-- C1: in `PPO.update`'s backward recursion (lines 157-161), the running
discounted reward is multiplied by `(1 - done)` per slot before
`discounted_reward = reward + gamma * discounted_reward` is taken, so at any
timestep `t` and slot `i` with `done = true` the computed return is exactly
`reward[t][i]`, whatever the later rewards and the bootstrap value are. -/
theorem update_return_terminal_eq_reward (gamma : ℚ)
    (steps : List (List ℚ × List Bool)) (boot : List ℚ) (B t i : ℕ)
    (hs : ∀ s ∈ steps, s.1.length = B ∧ s.2.length = B)
    (hb : boot.length = B)
    (ht : t < steps.length) (hi : i < B)
    (hdone : (steps.getD t ([], [])).2.getD i false = true) :
    ((computeReturns gamma steps boot).1.getD t []).getD i 0
      = (steps.getD t ([], [])).1.getD i 0 := by
  induction steps generalizing t with
  | nil => simp at ht
  | cons s rest ih =>
      have hrd := hs s (List.mem_cons_self ..)
      have hrest : ∀ x ∈ rest, x.1.length = B ∧ x.2.length = B :=
        fun x hx => hs x (List.mem_cons_of_mem _ hx)
      obtain ⟨r, d⟩ := s
      simp only at hrd
      cases t with
      | zero =>
          have hdr : (computeReturns gamma rest boot).2.length = B :=
            computeReturns_carried_length gamma rest boot B hrest hb
          simp only [List.getD_cons_zero] at hdone ⊢
          simp only [computeReturns, List.getD_cons_zero]
          have hi_r : i < r.length := by rw [hrd.1]; exact hi
          have hi_d : i < d.length := by rw [hrd.2]; exact hi
          have hi_m : i < (maskDone (computeReturns gamma rest boot).2 d).length := by
            simp only [maskDone, List.length_zipWith, hdr, hrd.2]
            simpa using hi
          have hlen : i < (stepReturn gamma r d
              (computeReturns gamma rest boot).2).length := by
            simp only [stepReturn, List.length_zipWith, hrd.1]
            omega
          rw [List.getD_eq_getElem _ _ hlen, List.getD_eq_getElem _ _ hi_r]
          rw [List.getD_eq_getElem _ _ hi_d] at hdone
          simp only [stepReturn, maskDone, List.getElem_zipWith, hdone,
            doneToFloat, if_true]
          ring
      | succ t' =>
          simp only [List.getD_cons_succ] at hdone ⊢
          simp only [computeReturns, List.getD_cons_succ]
          exact ih t' hrest (by simp at ht; omega) hdone

/-- Witness for C1: a 1-slot window `[(reward 2, done true)]` with a nonzero
bootstrap value `7` and `gamma = 1/2` still yields return exactly `2`. -/
theorem update_return_terminal_eq_reward_witness :
    (∀ s ∈ [([(2 : ℚ)], [true])], s.1.length = 1 ∧ s.2.length = 1) ∧
    ([(7 : ℚ)].length = 1) ∧ (0 < [([(2 : ℚ)], [true])].length) ∧ (0 < 1) ∧
    (([([(2 : ℚ)], [true])].getD 0 ([], [])).2.getD 0 false = true) ∧
    ((computeReturns (1/2) [([(2 : ℚ)], [true])] [(7 : ℚ)]).1.getD 0 []).getD 0 0
      = ([([(2 : ℚ)], [true])].getD 0 ([], [])).1.getD 0 0 :=
  ⟨by simp, by simp, by simp, by simp, by simp,
   update_return_terminal_eq_reward (1/2) [([(2 : ℚ)], [true])] [(7 : ℚ)]
     1 0 0 (by simp) (by simp) (by simp) (by simp) (by simp)⟩

/-- C3: the 2-slot, 3-timestep scenario with rewards `[1, 0, 5]` / `[0, 0, 1]`,
`done = [false, false, true]` on both slots, `gamma = 1/2`, bootstrap `0`:
the recursion of lines 148-161 produces exactly returns `[2.25, 2.5, 5]` for
slot 0 and `[0.25, 0.5, 1]` for slot 1. -/
theorem returns_window_example :
    (computeReturns (1/2)
        [([1, 0], [false, false]), ([0, 0], [false, false]),
         ([5, 1], [true, true])] [0, 0]).1
      = [[9/4, 1/4], [5/2, 1/2], [5, 1]] := by
  norm_num [computeReturns, stepReturn, maskDone, doneToFloat]

/-- C2: `policy_old` equals `policy` right after construction (lines 143-144)
and again as the final step of every `PPO.update` (line 207); a driver
timestep that does not trigger an update leaves the `PPO` state untouched,
and one that does ends with the two snapshots synchronized.  Consequently any
log-probability function gives equal values on the two snapshots immediately
after synchronization, and the importance ratio
`exp(new_logprob - old_logprob)` is exactly `1`. -/
theorem policy_old_sync {P X G C A L : Type} (gradEpoch : P → P) (K : Nat)
    (s : PPOState P) (p0 : P) (lp : P → X → ℝ) (x : X)
    (actF : P → List G → List C → A × L)
    (envF : ItemsContainer G C → A → ItemsContainer G C)
    (trainF : Memory G C A L → P → P) (u : Nat)
    (d : DriverState P G C A L) :
    (PPOState.init p0).policy_old = (PPOState.init p0).policy ∧
    (ppoUpdate gradEpoch K s).policy_old = (ppoUpdate gradEpoch K s).policy ∧
    ((d.timestep + 1) % u ≠ 0 →
      (mainTimestep actF envF trainF K u d).ppo = d.ppo) ∧
    ((d.timestep + 1) % u = 0 →
      (mainTimestep actF envF trainF K u d).ppo.policy_old
        = (mainTimestep actF envF trainF K u d).ppo.policy) ∧
    lp (ppoUpdate gradEpoch K s).policy x
      = lp (ppoUpdate gradEpoch K s).policy_old x ∧
    Real.exp (lp (ppoUpdate gradEpoch K s).policy x
      - lp (ppoUpdate gradEpoch K s).policy_old x) = 1 := by
  refine ⟨rfl, rfl, ?_, ?_, rfl, by simp [ppoUpdate]⟩
  · intro hne
    simp [mainTimestep, hne]
  · intro heq
    simp [mainTimestep, heq, ppoUpdate]

/-- Witness for C2 at trivial policies: with cadence `u = 1` the first
timestep triggers an update and synchronizes; with cadence `u = 2` it does
not and the `PPO` state is untouched. -/
theorem policy_old_sync_witness :
    ((0 + 1) % 1 = 0) ∧ ((0 + 1) % 2 ≠ 0) ∧
    ((mainTimestep (fun (_ : ℕ) (_ : List ℕ) (_ : List ℕ) => ((0 : ℕ), (0 : ℕ)))
        (fun c _ => c) (fun _ p => p) 4 1
        ⟨Memory.init ℕ ℕ ℕ ℕ, ItemsContainer.init ℕ ℕ, PPOState.init 0, 0⟩).ppo.policy_old
      = (mainTimestep (fun (_ : ℕ) (_ : List ℕ) (_ : List ℕ) => ((0 : ℕ), (0 : ℕ)))
          (fun c _ => c) (fun _ p => p) 4 1
          ⟨Memory.init ℕ ℕ ℕ ℕ, ItemsContainer.init ℕ ℕ, PPOState.init 0, 0⟩).ppo.policy) ∧
    ((mainTimestep (fun (_ : ℕ) (_ : List ℕ) (_ : List ℕ) => ((0 : ℕ), (0 : ℕ)))
        (fun c _ => c) (fun _ p => p) 4 2
        ⟨Memory.init ℕ ℕ ℕ ℕ, ItemsContainer.init ℕ ℕ, PPOState.init 0, 0⟩).ppo
      = PPOState.init 0) :=
  ⟨by decide, by decide,
   (policy_old_sync (fun p => p) 4 (PPOState.init 0) 0
      (fun (_ : ℕ) (_ : ℕ) => (0 : ℝ)) 0
      (fun (_ : ℕ) (_ : List ℕ) (_ : List ℕ) => ((0 : ℕ), (0 : ℕ)))
      (fun c _ => c) (fun _ p => p) 1
      ⟨Memory.init ℕ ℕ ℕ ℕ, ItemsContainer.init ℕ ℕ, PPOState.init 0, 0⟩).2.2.2.1
     (by decide),
   (policy_old_sync (fun p => p) 4 (PPOState.init 0) 0
      (fun (_ : ℕ) (_ : ℕ) => (0 : ℝ)) 0
      (fun (_ : ℕ) (_ : List ℕ) (_ : List ℕ) => ((0 : ℕ), (0 : ℕ)))
      (fun c _ => c) (fun _ p => p) 2
      ⟨Memory.init ℕ ℕ ℕ ℕ, ItemsContainer.init ℕ ℕ, PPOState.init 0, 0⟩).2.2.1
     (by decide)⟩

/-- C4: the episode's step loop (lines 281-319) runs at most `max_timesteps`
iterations; it stops exactly when either the cap is reached or, at the end of
a timestep, some slot's done flag is true (for every earlier executed
timestep no slot was done); and every executed timestep applies the
environment step to every slot of the batch, including slots already done. -/
theorem episode_loop_termination {σ : Type} (stepSlot : σ → σ)
    (isDone : σ → Bool) (maxT : Nat) (b0 : List σ) :
    (stepEpisode stepSlot isDone maxT b0).length ≤ maxT ∧
    ((stepEpisode stepSlot isDone maxT b0).length = maxT ∨
      ((stepEpisode stepSlot isDone maxT b0).getLastD []).any isDone = true) ∧
    (∀ i, i + 1 < (stepEpisode stepSlot isDone maxT b0).length →
      ((stepEpisode stepSlot isDone maxT b0).getD i []).any isDone = false) ∧
    (0 < (stepEpisode stepSlot isDone maxT b0).length →
      (stepEpisode stepSlot isDone maxT b0).getD 0 [] = b0.map stepSlot) ∧
    (∀ i, i + 1 < (stepEpisode stepSlot isDone maxT b0).length →
      (stepEpisode stepSlot isDone maxT b0).getD (i + 1) []
        = ((stepEpisode stepSlot isDone maxT b0).getD i []).map stepSlot) := by
  induction maxT generalizing b0 with
  | zero => simp [stepEpisode]
  | succ n ih =>
      by_cases h : (b0.map stepSlot).any isDone
      · have hrw : stepEpisode stepSlot isDone (n + 1) b0 = [b0.map stepSlot] := by
          simp [stepEpisode, h]
        rw [hrw]
        refine ⟨by simp, Or.inr (by simp [h]), ?_, by simp, ?_⟩
        · intro i hi; simp at hi
        · intro i hi; simp at hi
      · have hrw : stepEpisode stepSlot isDone (n + 1) b0
            = (b0.map stepSlot) :: stepEpisode stepSlot isDone n (b0.map stepSlot) := by
          simp [stepEpisode, h]
        obtain ⟨iha, ihb, ihc, ihd, ihe⟩ := ih (b0.map stepSlot)
        rw [hrw]
        refine ⟨by simpa using iha, ?_, ?_, by simp, ?_⟩
        · rcases ihb with hb | hb
          · exact Or.inl (by simp [hb])
          · right
            cases hrest : stepEpisode stepSlot isDone n (b0.map stepSlot) with
            | nil => rw [hrest] at hb; simp at hb
            | cons x xs =>
                rw [hrest] at hb
                simp only [List.getLastD_cons] at hb ⊢
                exact hb
        · intro i hi
          cases i with
          | zero =>
              simp only [List.getD_cons_zero]
              simpa using h
          | succ j =>
              simp only [List.getD_cons_succ]
              exact ihc j (by simp at hi; omega)
        · intro i hi
          cases i with
          | zero =>
              simp only [List.getD_cons_succ, List.getD_cons_zero]
              exact ihd (by simp at hi; omega)
          | succ j =>
              simp only [List.getD_cons_succ]
              exact ihe j (by simp at hi; omega)

/-- Witness for C4: one already-done slot (`σ = Bool`, done flag is the slot
itself) under a 3-step cap: the loop executes exactly one timestep, whose
batch is `map` of the step function over every slot. -/
theorem episode_loop_termination_witness :
    (0 < (stepEpisode (fun b => b) (fun b => b) 3 [true]).length) ∧
    (stepEpisode (fun b => b) (fun b => b) 3 [true]).getD 0 []
      = [true].map (fun b => b) :=
  ⟨by decide,
   (episode_loop_termination (fun b => b) (fun b => b) 3 [true]).2.2.2.1
     (by decide)⟩

/-- C5: in every epoch of the K-epoch loop the advantage is exactly the
normalized return minus the (gradient-detached, hence value-identical) state
value of that epoch's evaluation — no further standardization is applied to
it (line 189 is commented out); the only mean/std normalization in the update
is the one applied once to the concatenated returns, with `1e-5` added to
the standard deviation (line 165). -/
theorem advantage_unstandardized (K : Nat) (eps_clip : ℝ)
    (returns old_logprobs : List ℝ) (evalPolicy : Nat → EpochEval)
    (k : Nat) (hk : k < K) :
    ((ppoUpdateEpochs K eps_clip returns old_logprobs evalPolicy).getD k
        ⟨[], [], [], []⟩).advantages
      = List.zipWith (fun r v => r - v) (normalizeRewards returns)
          (evalPolicy k).state_values ∧
    normalizeRewards returns
      = returns.map (fun x => (x - tmean returns) / (tstd returns + 1e-5)) := by
  constructor
  · have hlen : k < ((List.range K).map
        (fun j => ppoEpoch eps_clip (normalizeRewards returns) old_logprobs
          (evalPolicy j))).length := by
      simpa using hk
    simp only [ppoUpdateEpochs]
    rw [List.getD_eq_getElem _ _ hlen, List.getElem_map, List.getElem_range]
    rfl
  · rfl

/-- Witness for C5 at `K = 1`, epoch `0`, on the empty flat batch. -/
theorem advantage_unstandardized_witness :
    (0 < 1) ∧
    (((ppoUpdateEpochs 1 0 [] [] (fun _ => ⟨[], [], []⟩)).getD 0
        ⟨[], [], [], []⟩).advantages
      = List.zipWith (fun r v => r - v) (normalizeRewards [])
          (EpochEval.mk [] [] []).state_values ∧
     normalizeRewards ([] : List ℝ)
      = ([] : List ℝ).map (fun x => (x - tmean []) / (tstd [] + 1e-5))) :=
  ⟨by decide,
   advantage_unstandardized 1 0 [] [] (fun _ => ⟨[], [], []⟩) 0 (by decide)⟩

/-- In-place writes do not change the number of heap cells. -/
theorem writes_length {α : Type} (h : Heap α) (a : Nat) (ms : List α) :
    (h.writes a ms).cells.length = h.cells.length := by
  induction ms generalizing h with
  | nil => rfl
  | cons v vs ih =>
      simp [Heap.writes, List.foldl_cons] at ih ⊢
      rw [ih]
      simp [Heap.write]

/-- In-place writes at one address never change a read at another address. -/
theorem writes_read_ne {α : Type} (h : Heap α) (a b : Nat) (dflt : α)
    (ms : List α) (hab : a ≠ b) :
    (h.writes a ms).read b dflt = h.read b dflt := by
  induction ms generalizing h with
  | nil => rfl
  | cons v vs ih =>
      simp only [Heap.writes, List.foldl_cons] at ih ⊢
      rw [ih]
      simp [Heap.read, Heap.write, List.getD_eq_getElem?_getD,
        List.getElem?_set_ne hab]

/-- Mutating a freshly allocated deep-copy snapshot leaves every live cell of
the original heap unchanged. -/
theorem snapshot_fresh_read {α : Type} (h : Heap α) (a b : Nat) (dflt : α)
    (ms : List α) (hb : b < h.cells.length) :
    ((snapshotAt h a dflt).1.writes (snapshotAt h a dflt).2 ms).read b dflt
      = h.read b dflt := by
  rw [writes_read_ne]
  · simp [snapshotAt, Heap.alloc, Heap.read, List.getD_eq_getElem?_getD,
      List.getElem?_append_left hb]
  · simp [snapshotAt, Heap.alloc]
    omega

/-- Reading a fresh snapshot gives the snapshotted field's current value. -/
theorem snapshot_value {α : Type} (h : Heap α) (a : Nat) (dflt : α) :
    (snapshotAt h a dflt).1.read (snapshotAt h a dflt).2 dflt
      = h.read a dflt := by
  simp [snapshotAt, Heap.alloc, Heap.read, List.getD_eq_getElem?_getD,
    List.getElem?_append]

/-- C6: each of the five read accessors (`reward`, `inp_graph`, `makespan`,
`node_candidates`, `done`, lines 37-55) returns an independent deep copy:
after any sequence of in-place mutations of the returned snapshot, every
internal field of the container reads unchanged, and a second, freshly
fetched snapshot of the same field yields the pre-mutation value.  Here `a`
ranges over the mutated accessor's internal address and `b` over all five
internal addresses. -/
theorem accessors_deepcopy_independent {α : Type} (h : Heap α) (c : ItemsRef)
    (dflt : α) (hwf : c.wf h) (ms : List α) (a b : Nat)
    (ha : a ∈ c.fieldAddrs) (hb : b ∈ c.fieldAddrs) :
    (c.reward h dflt = snapshotAt h c.rewardA dflt ∧
     c.inp_graph h dflt = snapshotAt h c.inp_graphA dflt ∧
     c.makespan h dflt = snapshotAt h c.makespanA dflt ∧
     c.node_candidates h dflt = snapshotAt h c.node_candidatesA dflt ∧
     c.done h dflt = snapshotAt h c.doneA dflt) ∧
    ((snapshotAt h a dflt).1.writes (snapshotAt h a dflt).2 ms).read b dflt
      = h.read b dflt ∧
    (snapshotAt ((snapshotAt h a dflt).1.writes (snapshotAt h a dflt).2 ms)
        a dflt).1.read
      (snapshotAt ((snapshotAt h a dflt).1.writes (snapshotAt h a dflt).2 ms)
        a dflt).2 dflt
      = h.read a dflt := by
  obtain ⟨h1, h2, h3, h4, h5⟩ := hwf
  have hb' : b < h.cells.length := by
    simp [ItemsRef.fieldAddrs] at hb
    rcases hb with rfl | rfl | rfl | rfl | rfl <;> assumption
  have ha' : a < h.cells.length := by
    simp [ItemsRef.fieldAddrs] at ha
    rcases ha with rfl | rfl | rfl | rfl | rfl <;> assumption
  refine ⟨⟨rfl, rfl, rfl, rfl, rfl⟩, snapshot_fresh_read h a b dflt ms hb', ?_⟩
  rw [snapshot_value]
  exact snapshot_fresh_read h a a dflt ms ha'

/-- Witness for C6: a five-cell heap, the `reward` accessor's snapshot
mutated to `99`, checked against the `makespan` field's cell. -/
theorem accessors_deepcopy_independent_witness :
    (ItemsRef.wf ⟨0, 1, 2, 3, 4⟩ (⟨[10, 20, 30, 40, 50]⟩ : Heap ℕ)) ∧
    ((0 : ℕ) ∈ ItemsRef.fieldAddrs ⟨0, 1, 2, 3, 4⟩) ∧
    ((2 : ℕ) ∈ ItemsRef.fieldAddrs ⟨0, 1, 2, 3, 4⟩) ∧
    (((snapshotAt (⟨[10, 20, 30, 40, 50]⟩ : Heap ℕ) 0 0).1.writes
        (snapshotAt (⟨[10, 20, 30, 40, 50]⟩ : Heap ℕ) 0 0).2 [99]).read 2 0
      = (⟨[10, 20, 30, 40, 50]⟩ : Heap ℕ).read 2 0) :=
  ⟨⟨by decide, by decide, by decide, by decide, by decide⟩, by decide, by decide,
   ((accessors_deepcopy_independent (⟨[10, 20, 30, 40, 50]⟩ : Heap ℕ)
       ⟨0, 1, 2, 3, 4⟩ 0
       ⟨by decide, by decide, by decide, by decide, by decide⟩
       [99] 0 2 (by decide) (by decide)).2).1⟩

/-- C7: `ItemsContainer.update` (lines 57-67) replaces exactly the supplied
fields of the one slot `idx`: every field of every other slot is unchanged,
every unsupplied (`none`) field is unchanged in full, each supplied field
takes the new value at `idx`, and an update supplying no fields is the
identity. -/
theorem update_frame_exact {G C : Type} (c : ItemsContainer G C) (idx : Nat)
    (r? : Option ℚ) (g? : Option G) (m? : Option ℚ) (n? : Option C)
    (d? : Option Bool) :
    (∀ j, j ≠ idx →
      (c.update idx r? g? m? n? d?).reward[j]? = c.reward[j]? ∧
      (c.update idx r? g? m? n? d?).inp_graph[j]? = c.inp_graph[j]? ∧
      (c.update idx r? g? m? n? d?).makespan[j]? = c.makespan[j]? ∧
      (c.update idx r? g? m? n? d?).node_candidates[j]? = c.node_candidates[j]? ∧
      (c.update idx r? g? m? n? d?).done[j]? = c.done[j]?) ∧
    (r? = none → (c.update idx r? g? m? n? d?).reward = c.reward) ∧
    (g? = none → (c.update idx r? g? m? n? d?).inp_graph = c.inp_graph) ∧
    (m? = none → (c.update idx r? g? m? n? d?).makespan = c.makespan) ∧
    (n? = none → (c.update idx r? g? m? n? d?).node_candidates = c.node_candidates) ∧
    (d? = none → (c.update idx r? g? m? n? d?).done = c.done) ∧
    (∀ r, r? = some r → idx < c.reward.length →
      (c.update idx r? g? m? n? d?).reward[idx]? = some r) ∧
    (∀ g, g? = some g → idx < c.inp_graph.length →
      (c.update idx r? g? m? n? d?).inp_graph[idx]? = some g) ∧
    (∀ m, m? = some m → idx < c.makespan.length →
      (c.update idx r? g? m? n? d?).makespan[idx]? = some m) ∧
    (∀ n, n? = some n → idx < c.node_candidates.length →
      (c.update idx r? g? m? n? d?).node_candidates[idx]? = some n) ∧
    (∀ d, d? = some d → idx < c.done.length →
      (c.update idx r? g? m? n? d?).done[idx]? = some d) ∧
    c.update idx none none none none none = c := by
  refine ⟨?_, ?_, ?_, ?_, ?_, ?_, ?_, ?_, ?_, ?_, ?_, ?_⟩
  · intro j hj
    refine ⟨?_, ?_, ?_, ?_, ?_⟩ <;>
      · cases r? <;> cases g? <;> cases m? <;> cases n? <;> cases d? <;>
          simp [ItemsContainer.update, List.getElem?_set_ne (Ne.symm hj)]
  · intro hx; subst hx; cases g? <;> cases m? <;> cases n? <;> cases d? <;>
      simp [ItemsContainer.update]
  · intro hx; subst hx; cases r? <;> cases m? <;> cases n? <;> cases d? <;>
      simp [ItemsContainer.update]
  · intro hx; subst hx; cases r? <;> cases g? <;> cases n? <;> cases d? <;>
      simp [ItemsContainer.update]
  · intro hx; subst hx; cases r? <;> cases g? <;> cases m? <;> cases d? <;>
      simp [ItemsContainer.update]
  · intro hx; subst hx; cases r? <;> cases g? <;> cases m? <;> cases n? <;>
      simp [ItemsContainer.update]
  · intro r hr hlt; subst hr
    simp [ItemsContainer.update, List.getElem?_set_self hlt]
  · intro g hg hlt; subst hg
    simp [ItemsContainer.update, List.getElem?_set_self hlt]
  · intro m hm hlt; subst hm
    simp [ItemsContainer.update, List.getElem?_set_self hlt]
  · intro n hn hlt; subst hn
    simp [ItemsContainer.update, List.getElem?_set_self hlt]
  · intro d hd hlt; subst hd
    simp [ItemsContainer.update, List.getElem?_set_self hlt]
  · simp [ItemsContainer.update]

/-- Witness for C7: a two-slot container, updating only the done flag of
slot 0 leaves slot 1's done flag unchanged. -/
theorem update_frame_exact_witness :
    ((1 : ℕ) ≠ 0) ∧
    ((ItemsContainer.update (G := ℕ) (C := ℕ)
        ⟨[1, 2], [3, 4], [5, 6], [7, 8], [false, false]⟩ 0
        none none none none (some true)).done[1]?
      = ([false, false] : List Bool)[1]?) :=
  ⟨by decide,
   ((update_frame_exact (G := ℕ) (C := ℕ)
       ⟨[1, 2], [3, 4], [5, 6], [7, 8], [false, false]⟩ 0
       none none none none (some true)).1 1 (by decide)).2.2.2.2⟩

/-- C8: `Memory.clear_memory` (lines 79-85) leaves all six trajectory lists
empty; in the driver's timestep (lines 305-315) the buffer consumed by an
update is exactly the previous buffer extended by this timestep's six
appends, an update-triggering timestep ends with the buffer cleared
immediately after the update (and never cleared before it), and a
non-update timestep only appends. -/
theorem update_clear_pairing {P G C A L : Type} (m : Memory G C A L)
    (actF : P → List G → List C → A × L)
    (envF : ItemsContainer G C → A → ItemsContainer G C)
    (trainF : Memory G C A L → P → P) (K u : Nat)
    (s : DriverState P G C A L) :
    (m.clear_memory.actions = [] ∧ m.clear_memory.states = [] ∧
     m.clear_memory.candidates = [] ∧ m.clear_memory.logprobs = [] ∧
     m.clear_memory.rewards = [] ∧ m.clear_memory.is_terminals = []) ∧
    ((consumedBuffer actF envF s).states
        = s.memory.states ++ [s.items.inp_graph] ∧
     (consumedBuffer actF envF s).candidates
        = s.memory.candidates ++ [s.items.node_candidates] ∧
     (consumedBuffer actF envF s).actions
        = s.memory.actions
          ++ [(actF s.ppo.policy_old s.items.inp_graph s.items.node_candidates).1] ∧
     (consumedBuffer actF envF s).logprobs
        = s.memory.logprobs
          ++ [(actF s.ppo.policy_old s.items.inp_graph s.items.node_candidates).2] ∧
     (consumedBuffer actF envF s).rewards
        = s.memory.rewards
          ++ [(envF s.items
                (actRecord actF s.ppo.policy_old s.items s.memory).2).reward] ∧
     (consumedBuffer actF envF s).is_terminals
        = s.memory.is_terminals
          ++ [(envF s.items
                (actRecord actF s.ppo.policy_old s.items s.memory).2).done]) ∧
    ((s.timestep + 1) % u = 0 →
      (mainTimestep actF envF trainF K u s).ppo
        = ppoUpdate (trainF (consumedBuffer actF envF s)) K s.ppo ∧
      (mainTimestep actF envF trainF K u s).memory
        = (consumedBuffer actF envF s).clear_memory) ∧
    ((s.timestep + 1) % u ≠ 0 →
      (mainTimestep actF envF trainF K u s).memory = consumedBuffer actF envF s ∧
      (mainTimestep actF envF trainF K u s).ppo = s.ppo) := by
  refine ⟨⟨rfl, rfl, rfl, rfl, rfl, rfl⟩, ⟨rfl, rfl, rfl, rfl, rfl, rfl⟩, ?_, ?_⟩
  · intro h
    constructor <;> simp [mainTimestep, consumedBuffer, h]
  · intro h
    constructor <;> simp [mainTimestep, consumedBuffer, h]

/-- Witness for C8: with cadence `u = 1` the first timestep updates and ends
with a cleared buffer; with cadence `u = 2` the buffer is exactly the
consumed buffer (the appends of this timestep) and the policy pair is
untouched. -/
theorem update_clear_pairing_witness :
    ((0 + 1) % 1 = 0) ∧ ((0 + 1) % 2 ≠ 0) ∧
    ((mainTimestep (fun (_ : ℕ) (_ : List ℕ) (_ : List ℕ) => ((0 : ℕ), (0 : ℕ)))
        (fun c _ => c) (fun _ p => p) 4 1
        ⟨Memory.init ℕ ℕ ℕ ℕ, ItemsContainer.init ℕ ℕ, PPOState.init 0, 0⟩).memory
      = (consumedBuffer (fun (_ : ℕ) (_ : List ℕ) (_ : List ℕ) => ((0 : ℕ), (0 : ℕ)))
          (fun c _ => c)
          ⟨Memory.init ℕ ℕ ℕ ℕ, ItemsContainer.init ℕ ℕ, PPOState.init 0, 0⟩).clear_memory) ∧
    ((mainTimestep (fun (_ : ℕ) (_ : List ℕ) (_ : List ℕ) => ((0 : ℕ), (0 : ℕ)))
        (fun c _ => c) (fun _ p => p) 4 2
        ⟨Memory.init ℕ ℕ ℕ ℕ, ItemsContainer.init ℕ ℕ, PPOState.init 0, 0⟩).memory
      = consumedBuffer (fun (_ : ℕ) (_ : List ℕ) (_ : List ℕ) => ((0 : ℕ), (0 : ℕ)))
          (fun c _ => c)
          ⟨Memory.init ℕ ℕ ℕ ℕ, ItemsContainer.init ℕ ℕ, PPOState.init 0, 0⟩) :=
  ⟨by decide, by decide,
   ((update_clear_pairing (Memory.init ℕ ℕ ℕ ℕ)
       (fun (_ : ℕ) (_ : List ℕ) (_ : List ℕ) => ((0 : ℕ), (0 : ℕ)))
       (fun c _ => c) (fun _ p => p) 4 1
       ⟨Memory.init ℕ ℕ ℕ ℕ, ItemsContainer.init ℕ ℕ, PPOState.init 0, 0⟩).2.2.1
      (by decide)).2,
   ((update_clear_pairing (Memory.init ℕ ℕ ℕ ℕ)
       (fun (_ : ℕ) (_ : List ℕ) (_ : List ℕ) => ((0 : ℕ), (0 : ℕ)))
       (fun c _ => c) (fun _ p => p) 4 2
       ⟨Memory.init ℕ ℕ ℕ ℕ, ItemsContainer.init ℕ ℕ, PPOState.init 0, 0⟩).2.2.2
      (by decide)).1⟩

/-- Applying `setattr` never adds or removes attributes, so `hasattr` is preserved. -/
theorem setattr_hasattr {V : Type} (args : List (String × V)) (k kk : String)
    (v : V) : hasattr (setattr args kk v) k = hasattr args k := by
  induction args with
  | nil => rfl
  | cons kv rest ih =>
      simp only [hasattr, setattr, List.map_cons, List.any_cons] at ih ⊢
      by_cases hkv : kv.1 = kk
      · simp [hkv, ih]
      · simp [if_neg hkv, ih]

/-- A config containing a key that is not an attribute of the parsed
namespace makes `applyConfig` fail with an error. -/
theorem applyConfig_fails {V : Type} (cfg : List (String × V))
    (args0 : List (String × V)) (k : String) (v : V)
    (hmem : (k, v) ∈ cfg) (hunk : hasattr args0 k = false) :
    ∃ msg, applyConfig cfg args0 = Except.error msg := by
  induction cfg generalizing args0 with
  | nil => simp at hmem
  | cons kv rest ih =>
      by_cases hh : hasattr args0 kv.1 = true
      · have hm2 : (k, v) ∈ rest := by
          rcases List.mem_cons.mp hmem with heq | hm
          · exfalso
            rw [← heq] at hh
            simp only at hh
            rw [hunk] at hh
            exact Bool.noConfusion hh
          · exact hm
        obtain ⟨msg, hmsg⟩ := ih (setattr args0 kv.1 kv.2) hm2
          (by rw [setattr_hasattr]; exact hunk)
        exact ⟨msg, by simp [applyConfig, hh, hmsg]⟩
      · exact ⟨"Unknown config key: " ++ kv.1, by simp [applyConfig, hh]⟩

/-- C9: a configuration with an unrecognized key is fatal during
argument/config parsing (the `assert hasattr` of lines 437-438): the program
result is an error and the `ok` branch carrying `main`'s environment and
network calls is never reached, for every possible `main` behaviour. -/
theorem unknown_config_key_fatal {V E : Type} (cfg args0 : List (String × V))
    (k : String) (v : V) (mainEvents : List (String × V) → List E)
    (hmem : (k, v) ∈ cfg) (hunk : hasattr args0 k = false) :
    (∃ msg, runProgram cfg args0 mainEvents = Except.error msg) ∧
    ∀ evts, runProgram cfg args0 mainEvents ≠ Except.ok evts := by
  obtain ⟨msg, hmsg⟩ := applyConfig_fails cfg args0 k v hmem hunk
  refine ⟨⟨msg, ?_⟩, ?_⟩
  · simp [runProgram, hmsg]
  · intro evts
    simp [runProgram, hmsg]

/-- Witness for C9: a config holding the unknown key `bogus` against a
namespace having only the attribute `gamma` fails. -/
theorem unknown_config_key_fatal_witness :
    (("bogus", (0 : ℕ)) ∈ [("bogus", (0 : ℕ))]) ∧
    (hasattr [("gamma", (0 : ℕ))] "bogus" = false) ∧
    (∃ msg, runProgram [("bogus", (0 : ℕ))] [("gamma", (0 : ℕ))]
        (fun _ => ([] : List ℕ)) = Except.error msg) :=
  ⟨by simp, by decide,
   (unknown_config_key_fatal [("bogus", (0 : ℕ))] [("gamma", (0 : ℕ))]
      "bogus" 0 (fun _ => ([] : List ℕ)) (by simp) (by decide)).1⟩

/-- The buffer consumed by an update has all six lists extended by exactly
one batched entry, so alignment is preserved with length one greater. -/
theorem consumedBuffer_aligned {P G C A L : Type}
    (actF : P → List G → List C → A × L)
    (envF : ItemsContainer G C → A → ItemsContainer G C)
    (s : DriverState P G C A L) (h0 : s.memory.aligned) :
    (consumedBuffer actF envF s).aligned ∧
    (consumedBuffer actF envF s).states.length
      = s.memory.states.length + 1 := by
  obtain ⟨h1, h2, h3, h4, h5⟩ := h0
  refine ⟨⟨?_, ?_, ?_, ?_, ?_⟩, ?_⟩ <;>
    simp [consumedBuffer, recordStep, actRecord, h1, h2, h3, h4, h5]

/-- One driver timestep preserves alignment of the trajectory buffer. -/
theorem mainTimestep_aligned {P G C A L : Type}
    (actF : P → List G → List C → A × L)
    (envF : ItemsContainer G C → A → ItemsContainer G C)
    (trainF : Memory G C A L → P → P) (K u : Nat)
    (s : DriverState P G C A L) (h0 : s.memory.aligned) :
    (mainTimestep actF envF trainF K u s).memory.aligned := by
  by_cases h : (s.timestep + 1) % u = 0
  · simp [mainTimestep, h, Memory.clear_memory, Memory.aligned]
  · have hc := (consumedBuffer_aligned actF envF s h0).1
    simpa [mainTimestep, h, consumedBuffer] using hc

/-- C10: starting from an aligned buffer (in particular the empty one), after
any number of completed driver timesteps the six trajectory lists have equal
length, and the buffer handed to `ppo.update` on the next timestep is
aligned with each list exactly one batched entry longer — every recorded
timestep carries a complete `(state, candidates, action, logprob, reward,
done)` record. -/
theorem memory_lists_aligned {P G C A L : Type}
    (actF : P → List G → List C → A × L)
    (envF : ItemsContainer G C → A → ItemsContainer G C)
    (trainF : Memory G C A L → P → P) (K u n : Nat)
    (s0 : DriverState P G C A L) (h0 : s0.memory.aligned) :
    ((mainTimestep actF envF trainF K u)^[n] s0).memory.aligned ∧
    (consumedBuffer actF envF
        ((mainTimestep actF envF trainF K u)^[n] s0)).aligned ∧
    (consumedBuffer actF envF
        ((mainTimestep actF envF trainF K u)^[n] s0)).states.length
      = ((mainTimestep actF envF trainF K u)^[n] s0).memory.states.length + 1 := by
  have hmain : ∀ j, ((mainTimestep actF envF trainF K u)^[j] s0).memory.aligned := by
    intro j
    induction j with
    | zero => simpa
    | succ i ihi =>
        rw [Function.iterate_succ_apply']
        exact mainTimestep_aligned actF envF trainF K u _ ihi
  exact ⟨hmain n, (consumedBuffer_aligned actF envF _ (hmain n)).1,
    (consumedBuffer_aligned actF envF _ (hmain n)).2⟩

/-- Witness for C10: two concrete timesteps from the freshly initialized
driver state keep the six buffer lists aligned. -/
theorem memory_lists_aligned_witness :
    (Memory.init ℕ ℕ ℕ ℕ).aligned ∧
    ((mainTimestep (fun (_ : ℕ) (_ : List ℕ) (_ : List ℕ) => ((0 : ℕ), (0 : ℕ)))
        (fun c _ => c) (fun _ p => p) 4 3)^[2]
      ⟨Memory.init ℕ ℕ ℕ ℕ, ItemsContainer.init ℕ ℕ, PPOState.init 0, 0⟩).memory.aligned :=
  ⟨⟨rfl, rfl, rfl, rfl, rfl⟩,
   (memory_lists_aligned (fun (_ : ℕ) (_ : List ℕ) (_ : List ℕ) => ((0 : ℕ), (0 : ℕ)))
      (fun c _ => c) (fun _ p => p) 4 3 2
      ⟨Memory.init ℕ ℕ ℕ ℕ, ItemsContainer.init ℕ ℕ, PPOState.init 0, 0⟩
      ⟨rfl, rfl, rfl, rfl, rfl⟩).1⟩

end DagPPO
